import Mathlib

/-!
Verification development for the TheKilnGod kiln-display repository.

The definitions below are a shallow embedding of the icon codec
(`parse_hex_data` / `hex_to_image` in `test_image_display.py`, and the
identical parsing core of `KilnDisplay.load_icon_from_hex` in `display.py`)
and of the state-to-layout mapping (`KilnDisplay.update` in `display.py`).

Conventions of the embedding:
* Python text is a `List Char`; `str.split('\n')` is `splitLines`,
  `'\n'.join` is `joinLines`.
* `re.search(r'(\d+)x(\d+)px', line, re.IGNORECASE)` is `dimSearch`
  (leftmost match; for this pattern the greedy runs never backtrack,
  because a proper prefix of a digit run is followed by a digit and the
  pattern requires a non-digit there).
* `re.findall(r'0x([0-9a-fA-F]+)', text)` with `int(tok, 16)` is
  `findHexTokens` (left-to-right, non-overlapping, resuming after each
  match; a match needs `0x` followed by at least one hex digit and takes
  the maximal hex-digit run).
* A PIL mode-`1` image of size `width × height` is the row-major flat
  list of its `width*height` bits: `img.putpixel((i % width, i / width), b)`
  sets index `i`, which is exactly how the decoder writes pixels.
* Dictionary snapshots are `OvenState`, where a field is
  `none` (key absent, `.get` default applies), `some none` (key present
  with value `None`) or `some (some v)`.
* A Python numeric comparison or subtraction on `None` raises `TypeError`;
  the layout body runs inside `with canvas(...)` and a `try/except`, and
  luma's canvas transmits the frame only on clean exit, so a raise means
  no frame is produced.  This is modelled by `Except Unit Frame`.
  Numeric snapshot fields are modelled as integers (every snapshot in the
  claims is integral).
-/

/-- Python `str.strip()` whitespace (the characters relevant to `startswith('//')`). -/
def isPySpace (c : Char) : Bool :=
  c = ' ' || c = '\t' || c = '\n' || c = '\r' || c = '\x0b' || c = '\x0c'

/-- `line.strip().startswith('//')` — a comment line of the hex icon format. -/
def isCommentLine (l : List Char) : Bool :=
  match l.dropWhile isPySpace with
  | '/' :: '/' :: _ => true
  | _ => false

/-- `\d` of the dimension pattern (code points 48–57 are `0`–`9`). -/
def isDigitChar (c : Char) : Bool := 48 ≤ c.toNat && c.toNat ≤ 57

/-- Decimal value of a digit character (48 is the code point of `0`). -/
def digitVal (c : Char) : Nat := c.toNat - 48

/-- Consume a maximal decimal digit run, accumulating its value. -/
def takeDigitRun : Nat → List Char → Nat × List Char
  | acc, [] => (acc, [])
  | acc, c :: rest =>
    if isDigitChar c then takeDigitRun (10 * acc + digitVal c) rest
    else (acc, c :: rest)

/-- Try to match `(\d+)x(\d+)px` (case-insensitive) at the head of the list. -/
def matchDimAt : List Char → Option (Nat × Nat)
  | [] => none
  | c :: rest =>
    if isDigitChar c then
      let r1 := takeDigitRun (digitVal c) rest
      match r1.2 with
      | x :: r2 =>
        if x = 'x' || x = 'X' then
          match r2 with
          | d :: r3 =>
            if isDigitChar d then
              let r4 := takeDigitRun (digitVal d) r3
              match r4.2 with
              | p :: q :: _ =>
                if (p = 'p' || p = 'P') && (q = 'x' || q = 'X') then some (r1.1, r4.1)
                else none
              | _ => none
            else none
          | [] => none
        else none
      | [] => none
    else none

/-- `re.search(r'(\d+)x(\d+)px', line, re.IGNORECASE)`: leftmost match in a line. -/
def dimSearch : List Char → Option (Nat × Nat)
  | [] => none
  | c :: rest =>
    match matchDimAt (c :: rest) with
    | some wh => some wh
    | none => dimSearch rest

/-- The dimension-extraction loop: first line with a match wins (`break`),
otherwise the caller-supplied defaults survive. -/
def extractDims : List (List Char) → Nat × Nat → Nat × Nat
  | [], d => d
  | l :: rest, d =>
    match dimSearch l with
    | some wh => wh
    | none => extractDims rest d

/-- Value of one character of the class `[0-9a-fA-F]`, `None` outside it
(97–102 are the code points of `a`–`f`, 65–70 those of `A`–`F`). -/
def hexVal (c : Char) : Option Nat :=
  let n := c.toNat
  if isDigitChar c then some (digitVal c)
  else if 97 ≤ n && n ≤ 102 then some (n - 87)
  else if 65 ≤ n && n ≤ 70 then some (n - 55)
  else none

def isHexDigitChar (c : Char) : Bool := (hexVal c).isSome

/-- `int(run, 16)` for a run of hex digits. -/
def hexListVal (l : List Char) : Nat := l.foldl (fun a c => 16 * a + (hexVal c).getD 0) 0

/-- Scanner state for `re.findall(r'0x([0-9a-fA-F]+)', text)`:
nothing pending / just consumed a `0` that can start a match / just
consumed `0x` / inside the captured hex-digit run with its value so far. -/
inductive ScanState where
  | s0
  | s1
  | s2
  | run (acc : Nat)

/-- One left-to-right pass of `re.findall(r'0x([0-9a-fA-F]+)', text)` with
`int(tok, 16)` applied to each capture, as the regex's scanning DFA: a match
is `0x` followed by a maximal nonempty hex-digit run (greedy; the next
candidate starts only after the match, so matches never overlap).  The
character ending a run is never `0` (a `0` is a hex digit and would extend
the run), so re-examining it for a new match start is exactly Python's
resume-after-match. -/
def scanHexAux : ScanState → List Char → List Nat
  | .run acc, [] => [acc]
  | _, [] => []
  | .run acc, c :: rest =>
    match hexVal c with
    | some d => scanHexAux (.run (16 * acc + d)) rest
    | none => acc :: scanHexAux (if c = '0' then .s1 else .s0) rest
  | .s2, c :: rest =>
    match hexVal c with
    | some d => scanHexAux (.run d) rest
    | none => scanHexAux (if c = '0' then .s1 else .s0) rest
  | .s1, c :: rest =>
    if c = 'x' then scanHexAux .s2 rest
    else if c = '0' then scanHexAux .s1 rest
    else scanHexAux .s0 rest
  | .s0, c :: rest =>
    if c = '0' then scanHexAux .s1 rest else scanHexAux .s0 rest

/-- `[int(tok, 16) for tok in re.findall(r'0x([0-9a-fA-F]+)', text)]`. -/
def findHexTokens (l : List Char) : List Nat := scanHexAux .s0 l

/-- Python `text.split('\n')`. -/
def splitLines : List Char → List (List Char)
  | [] => [[]]
  | c :: rest =>
    if c = '\n' then [] :: splitLines rest
    else
      match splitLines rest with
      | l :: ls => (c :: l) :: ls
      | [] => [[c]]

/-- Python `'\n'.join(lines)`. -/
def joinLines : List (List Char) → List Char
  | [] => []
  | [l] => l
  | l :: l2 :: rest => l ++ '\n' :: joinLines (l2 :: rest)

/-- `parse_hex_data(text)` of `test_image_display.py` (the identical parsing
core of `KilnDisplay.load_icon_from_hex` uses defaults 16×16 instead of
64×64; the defaults are the parameters `dw`, `dh`).  Dimensions are searched
over all lines of the raw text; comment lines are removed only afterwards,
before hex-token extraction. -/
def parse_hex_data (text : List Char) (dw dh : Nat) : List Nat × Nat × Nat :=
  let ls := splitLines text
  let wh := extractDims ls (dw, dh)
  let kept := ls.filter (fun l => ! isCommentLine l)
  (findHexTokens (joinLines kept), wh.1, wh.2)

/-- The 8 bits of a byte token, most-significant first
(`byte_val & (1 << bit)` for `bit` in `7..0`; only the low 8 bits of a
wide token are consumed). -/
def byteBits (b : Nat) : List Bool :=
  [b.testBit 7, b.testBit 6, b.testBit 5, b.testBit 4,
   b.testBit 3, b.testBit 2, b.testBit 1, b.testBit 0]

/-- The pixel stream emitted by the byte loop of `hex_to_image`. -/
def unpackBytes : List Nat → List Bool
  | [] => []
  | b :: rest => byteBits b ++ unpackBytes rest

/-- Size reconciliation of `hex_to_image` / `load_icon_from_hex`: pad with
zero bytes when short, truncate when long. -/
def reconcile (data : List Nat) (expected : Nat) : List Nat :=
  if data.length < expected then data ++ List.replicate (expected - data.length) 0
  else if expected < data.length then data.take expected
  else data

/-- An `n`-pixel image initialised to all-unlit, with bit `i` of the stream
written at pixel `i` for `i < min (stream length) n`
(`Image.new('1', (w, h), 0)` followed by the `putpixel` loop with its
`pixel_index >= width*height` bound). -/
def renderBits (bits : List Bool) (n : Nat) : List Bool :=
  bits.take n ++ List.replicate (n - bits.length) false

/-- `hex_to_image(hex_data, width, height)` as the row-major flat bit list
of the produced PIL image. -/
def hex_to_image (data : List Nat) (width height : Nat) : List Bool :=
  renderBits (unpackBytes (reconcile data (width * height / 8))) (width * height)

/-- `KilnDisplay.load_icon_from_hex` after the file read: parse with 16×16
defaults, then decode.  Returns the flat bitmap and its dimensions. -/
def load_icon_from_hex (text : List Char) : List Bool × Nat × Nat :=
  let r := parse_hex_data text 16 16
  (hex_to_image r.1 r.2.1 r.2.2, r.2.1, r.2.2)

/-- Numeric value of one bit (used to pack a byte MSB-first). -/
def bitVal (b : Bool) : Nat := if b then 1 else 0

/-- Pack 8 bits into one byte, most-significant first — the inverse of the
decoder's bit unpacking, used to state the round-trip property. -/
def packByte (b0 b1 b2 b3 b4 b5 b6 b7 : Bool) : Nat :=
  128 * bitVal b0 + 64 * bitVal b1 + 32 * bitVal b2 + 16 * bitVal b3 +
    8 * bitVal b4 + 4 * bitVal b5 + 2 * bitVal b6 + bitVal b7

/-- Pack a bit sequence into byte tokens, 8 bits per token, MSB-first. -/
def packBits : List Bool → List Nat
  | b0 :: b1 :: b2 :: b3 :: b4 :: b5 :: b6 :: b7 :: rest =>
      packByte b0 b1 b2 b3 b4 b5 b6 b7 :: packBits rest
  | _ => []

/-- Lower-case hex digit character for a value below 16
(digits start at code point 48, `a`–`f` at 97, so 87 + d for d ≥ 10). -/
def hexChar (d : Nat) : Char :=
  Char.ofNat (if d < 10 then 48 + d else 87 + d)

/-- Render one byte as a `0x??` token. -/
def byteToken (b : Nat) : List Char := ['0', 'x', hexChar (b / 16), hexChar (b % 16)]

/-- Render a byte list in the hex icon text format, `", "`-separated. -/
def encodeTokens : List Nat → List Char
  | [] => []
  | [b] => byteToken b
  | b :: b2 :: rest => byteToken b ++ ',' :: ' ' :: encodeTokens (b2 :: rest)

/-- A composed frame: the `draw.text((x, y), text)` calls of one clean
canvas transaction, in order. -/
abbrev Frame := List ((Nat × Nat) × String)

/-- A kiln status snapshot as the Python dict passed to
`KilnDisplay.update`: a field is `none` when the key is absent,
`some none` when it is present with value `None`, `some (some v)` otherwise. -/
structure OvenState where
  temperature : Option (Option Int)
  target : Option (Option Int)
  state : Option (Option String)
  profile : Option (Option String)
  runtime : Option (Option Int)
  totaltime : Option (Option Int)
  heat_rate : Option (Option Int)

/-- Python `dict.get(key, default)`. -/
def dictGet {α : Type} (v : Option (Option α)) (d : Option α) : Option α := v.getD d

/-- Python `f"{x}"` on an optional string (`str(None) = "None"`). -/
def pyStr : Option String → String
  | some s => s
  | none => "None"

/-- Python `x in [..]` on an optional string (`None` is not in a string list). -/
def pyInList (v : Option String) (l : List String) : Bool :=
  match v with
  | some s => l.contains s
  | none => false

/-- A Python numeric comparison/subtraction on this value: `None` raises
`TypeError` (modelled as `Except.error`), a number is returned. -/
def expectInt : Option Int → Except Unit Int
  | some n => Except.ok n
  | none => Except.error ()

/-- Python `str.lower()` (ASCII range, enough for the scale strings). -/
def pyLower (s : String) : String :=
  ⟨s.data.map (fun c => if 'A' ≤ c && c ≤ 'Z' then Char.ofNat (c.toNat + 32) else c)⟩

/-- `KilnDisplay.format_temperature`. -/
def format_temperature (temp : Option Int) (scale : String) : String :=
  match temp with
  | none => "---"
  | some t => if pyLower scale = "f" then toString t ++ "°F" else toString t ++ "°C"

/-- `%02d` formatting of a nonnegative field. -/
def pad2 (n : Nat) : String := if n < 10 then "0" ++ toString n else toString n

/-- `KilnDisplay.format_time`. -/
def format_time (seconds : Option Int) : String :=
  match seconds with
  | none => "--:--"
  | some s =>
    if s < 0 then "--:--"
    else
      let n := s.toNat
      let hours := n / 3600
      let minutes := n % 3600 / 60
      let secs := n % 60
      if 0 < hours then pad2 hours ++ ":" ++ pad2 minutes ++ ":" ++ pad2 secs
      else pad2 minutes ++ ":" ++ pad2 secs

/-- The state-to-layout mapping of `KilnDisplay.update` (the body of its
`try`): reads the snapshot with `.get` defaults, computes
`time_remaining = totaltime - runtime if totaltime > 0 else 0` (raising on a
`None` operand), then builds the text lines of one canvas transaction.
`Except.error` marks a raise, after which no frame is displayed. -/
def KilnDisplay.update (s : OvenState) (temp_scale : String) : Except Unit Frame := do
  let temp := dictGet s.temperature (some 0)
  let target := dictGet s.target (some 0)
  let state := dictGet s.state (some "IDLE")
  let profile := dictGet s.profile none
  let runtime := dictGet s.runtime (some 0)
  let totaltime := dictGet s.totaltime (some 0)
  let heat_rate := dictGet s.heat_rate (some 0)
  let tt ← expectInt totaltime
  let time_remaining ←
    if 0 < tt then do
      let rt ← expectInt runtime
      pure (tt - rt)
    else pure (0 : Int)
  let state_text :=
    match profile with
    | some p =>
      if p = "" then pyStr state
      else pyStr state ++ " - " ++ (if 12 < p.length then p.take 12 else p)
    | none => pyStr state
  let line1 := ((0, 0), state_text)
  let line2 := ((0, 12), "Temp: " ++ format_temperature temp temp_scale)
  let line3 := ((0, 24), "Targ: " ++ format_temperature target temp_scale)
  if pyInList state ["RUNNING", "PAUSED"] = true ∧ 0 < tt then do
    let time_text := "Time: " ++ format_time runtime ++ " / " ++ format_time totaltime
    let hr ← expectInt heat_rate
    let remaining_text := "Rem: " ++ format_time (some time_remaining) ++
      (if 0 < hr then " " ++ toString hr ++ "°/hr" else "")
    pure [line1, line2, line3, ((0, 36), time_text), ((0, 48), remaining_text)]
  else do
    let hr ← expectInt heat_rate
    if 0 < hr then pure [line1, line2, line3, ((0, 36), "Rate: " ++ toString hr ++ "°/hr")]
    else pure [line1, line2, line3]

/-- The snapshot of the C3 acceptance example, all keys present. -/
def runningSnap : OvenState :=
  { temperature := some (some 1250), target := some (some 1300),
    state := some (some "RUNNING"), profile := some (some "Cone 6 Glaze"),
    runtime := some (some 3600), totaltime := some (some 7200),
    heat_rate := some (some 150) }

/-- The snapshot of the C9 acceptance example (no `profile` key). -/
def idleSnap : OvenState :=
  { temperature := some (some 75), target := some (some 0),
    state := some (some "IDLE"), profile := none,
    runtime := some (some 0), totaltime := some (some 0),
    heat_rate := some (some 0) }

/-- A snapshot whose `heat_rate` key is present with value `None`
(all other keys absent). -/
def noneRateSnap : OvenState :=
  { temperature := none, target := none, state := none, profile := none,
    runtime := none, totaltime := none, heat_rate := some none }

/-- A running snapshot whose `temperature` and `target` keys are present
with value `None` (placeholder substitution applies to them). -/
def noneTempSnap : OvenState :=
  { temperature := some none, target := some none,
    state := some (some "RUNNING"), profile := none,
    runtime := some (some 10), totaltime := some (some 20),
    heat_rate := some (some 0) }

/-- Modelled from the spec: the repository has no `AnimationSequencer`
(the animation loop in `test_image_display.py` only plays frames forward);
§4.3's `PingPong` playback mode is embedded from the spec's words as a
step function on (current frame index, moving-forward flag): forward to
`N-1`, then backward to `1`, then forward again from `0`, endpoints not
repeated; a single frame repeats itself. -/
def pingPongNext (n : Nat) (s : Nat × Bool) : Nat × Bool :=
  match s with
  | (i, true) =>
    if i + 1 < n then (i + 1, true)
    else if i ≤ 1 then (0, true)
    else (i - 1, false)
  | (i, false) =>
    if i ≤ 1 then (0, true) else (i - 1, false)

/-- Modelled from the spec: the infinite play sequence of `PingPong` over
`n` frames, starting at frame 0 moving forward; `(pingPongSeq n k).1` is
the frame index shown at step `k`. -/
def pingPongSeq (n : Nat) : Nat → Nat × Bool
  | 0 => (0, true)
  | k + 1 => pingPongNext n (pingPongSeq n k)


theorem pingPongSeq_lt (n k : Nat) (h : k < n) : pingPongSeq n k = (k, true) := by
  induction k with
  | zero => rfl
  | succ k ih =>
    have hk : k < n := by omega
    show pingPongNext n (pingPongSeq n k) = (k + 1, true)
    rw [ih hk]
    simp [pingPongNext, h]

theorem pingPongSeq_back (n : Nat) (hn : 1 < n) :
    ∀ j, 1 ≤ j → j ≤ n - 2 → pingPongSeq n (n - 1 + j) = (n - 1 - j, false) := by
  intro j
  induction j with
  | zero => omega
  | succ j ih =>
    intro _ hj2
    show pingPongNext n (pingPongSeq n (n - 1 + j)) = (n - 1 - (j + 1), false)
    cases Nat.eq_zero_or_pos j with
    | inl h0 =>
      subst h0
      rw [Nat.add_zero, pingPongSeq_lt n (n - 1) (by omega)]
      have h1 : ¬ (n - 1 + 1 < n) := by omega
      have h2 : ¬ (n - 1 ≤ 1) := by omega
      simp [pingPongNext, h1, h2]
    | inr hpos =>
      rw [ih hpos (by omega)]
      have h2 : ¬ (n - 1 - j ≤ 1) := by omega
      simp [pingPongNext, h2]
      omega

theorem pingPongSeq_period_base (n : Nat) (hn : 1 < n) :
    pingPongSeq n (2 * n - 2) = (0, true) := by
  cases Nat.lt_or_ge n 3 with
  | inl h2 =>
    have hn2 : n = 2 := by omega
    subst hn2
    rfl
  | inr h3 =>
    have he : 2 * n - 2 = (n - 1 + (n - 2)) + 1 := by omega
    rw [he]
    show pingPongNext n (pingPongSeq n (n - 1 + (n - 2))) = (0, true)
    rw [pingPongSeq_back n hn (n - 2) (by omega) (by omega)]
    have h1 : n - 1 - (n - 2) = 1 := by omega
    rw [h1]
    rfl

theorem pingPongSeq_period (n : Nat) (hn : 1 < n) :
    ∀ k, pingPongSeq n (k + (2 * n - 2)) = pingPongSeq n k := by
  intro k
  induction k with
  | zero => rw [Nat.zero_add]; exact pingPongSeq_period_base n hn
  | succ k ih =>
    have he : k + 1 + (2 * n - 2) = (k + (2 * n - 2)) + 1 := by omega
    rw [he]
    show pingPongNext n (pingPongSeq n (k + (2 * n - 2))) = pingPongSeq n (k + 1)
    rw [ih]
    rfl

theorem pingPongSeq_one : ∀ k, pingPongSeq 1 k = (0, true) := by
  intro k
  induction k with
  | zero => rfl
  | succ k ih =>
    show pingPongNext 1 (pingPongSeq 1 k) = (0, true)
    rw [ih]
    rfl

/-- C6: a PingPong sequence over `n` frames plays `0..n-1` then `n-2..1`
(per-cycle order of length `2n - 2` for `n > 1`, the step-`k` frame being
`k` for `k < n` and `2n-2-k` afterwards), then repeats with period
`2n - 2`; for `n = 5` the cycle is `0,1,2,3,4,3,2,1` of length 8; for
`n = 1` the single frame repeats forever. -/
theorem claim_C6_pingpong :
    (∀ n, 1 < n →
      (∀ k, k < 2 * n - 2 → (pingPongSeq n k).1 = if k < n then k else 2 * n - 2 - k) ∧
      (∀ k, pingPongSeq n (k + (2 * n - 2)) = pingPongSeq n k)) ∧
    (List.range 8).map (fun k => (pingPongSeq 5 k).1) = [0, 1, 2, 3, 4, 3, 2, 1] ∧
    (∀ k, (pingPongSeq 1 k).1 = 0) := by
  refine ⟨fun n hn => ⟨fun k hk => ?_, pingPongSeq_period n hn⟩, by decide, fun k => ?_⟩
  · by_cases hkn : k < n
    · rw [pingPongSeq_lt n k hkn]
      simp [hkn]
    · have he : k = n - 1 + (k - n + 1) := by omega
      rw [he, pingPongSeq_back n hn (k - n + 1) (by omega) (by omega)]
      have h2 : ¬ (n - 1 + (k - n + 1) < n) := by omega
      simp [h2]
      omega
  · rw [pingPongSeq_one k]

theorem claim_C6_pingpong_witness :
    1 < 5 ∧ pingPongSeq 5 (1 + (2 * 5 - 2)) = pingPongSeq 5 1 :=
  ⟨by decide, (claim_C6_pingpong.1 5 (by decide)).2 1⟩

/-- C9: for the idle snapshot `{state: IDLE, temperature: 75, target: 0,
runtime: 0, total_time: 0, heat_rate: 0}` the layout is exactly the three
lines state, temperature, target — no time line and no rate line. -/
theorem claim_C9_idle_layout :
    KilnDisplay.update idleSnap "f" =
      Except.ok [((0, 0), "IDLE"), ((0, 12), "Temp: 75°F"), ((0, 24), "Targ: 0°F")] := rfl

/-- C3 counterexample: the claimed frame for the running snapshot names the
state line `"RUNNING - Cone 6 Glaz"`; the code does not produce that frame
(the profile `"Cone 6 Glaze"` is exactly 12 characters long, so the
12-character truncation leaves it whole). -/
theorem claim_C3_running_layout_cex :
    KilnDisplay.update runningSnap "f" ≠
      Except.ok [((0, 0), "RUNNING - Cone 6 Glaz"), ((0, 12), "Temp: 1250°F"),
        ((0, 24), "Targ: 1300°F"), ((0, 36), "Time: 01:00:00 / 02:00:00"),
        ((0, 48), "Rem: 01:00:00 150°/hr")] := by
  intro he
  have h2 : KilnDisplay.update runningSnap "f" =
      Except.ok [((0, 0), "RUNNING - Cone 6 Glaze"), ((0, 12), "Temp: 1250°F"),
        ((0, 24), "Targ: 1300°F"), ((0, 36), "Time: 01:00:00 / 02:00:00"),
        ((0, 48), "Rem: 01:00:00 150°/hr")] := rfl
  rw [h2] at he
  exact absurd (Except.ok.inj he) (by decide)

/-- C3 amended: for the running snapshot the state line is
`"RUNNING - Cone 6 Glaze"` (the 12-character profile survives truncation
unchanged); the temperature, target, time and remaining lines are as
claimed. -/
theorem claim_C3_running_layout :
    KilnDisplay.update runningSnap "f" =
      Except.ok [((0, 0), "RUNNING - Cone 6 Glaze"), ((0, 12), "Temp: 1250°F"),
        ((0, 24), "Targ: 1300°F"), ((0, 36), "Time: 01:00:00 / 02:00:00"),
        ((0, 48), "Rem: 01:00:00 150°/hr")] := rfl

/-- C2 counterexample: a snapshot whose `heat_rate` is `None` does not
yield a frame — the comparison `heat_rate > 0` raises, the canvas
transaction is aborted, and nothing is drawn (the claim promises a valid
placeholder frame for such snapshots). -/
theorem claim_C2_total_layout_cex :
    KilnDisplay.update noneRateSnap "f" = Except.error () := rfl

/-- C2 amended: the layout mapping is total — producing a frame whose
`None` temperature and target render as the `"---"` placeholder — for every
snapshot whose `runtime` (when needed), `totaltime` and `heat_rate` are
numbers after the `.get` defaulting; missing keys never abort (they
default), only a present numeric key holding `None` does. -/
theorem claim_C2_total_layout (s : OvenState) (scale : String)
    (ht : dictGet s.totaltime (some 0) ≠ none)
    (hh : dictGet s.heat_rate (some 0) ≠ none)
    (hr : ∀ t, dictGet s.totaltime (some 0) = some t → 0 < t →
      dictGet s.runtime (some 0) ≠ none) :
    ∃ ls, KilnDisplay.update s scale = Except.ok ls ∧
      (dictGet s.temperature (some 0) = none →
        ls.getD 1 ((0, 0), "") = ((0, 12), "Temp: ---")) ∧
      (dictGet s.target (some 0) = none →
        ls.getD 2 ((0, 0), "") = ((0, 24), "Targ: ---")) := by
  obtain ⟨t, htt⟩ : ∃ t, dictGet s.totaltime (some 0) = some t := by
    cases h : dictGet s.totaltime (some 0) with
    | none => exact absurd h ht
    | some t => exact ⟨t, rfl⟩
  obtain ⟨v, hhv⟩ : ∃ v, dictGet s.heat_rate (some 0) = some v := by
    cases h : dictGet s.heat_rate (some 0) with
    | none => exact absurd h hh
    | some v => exact ⟨v, rfl⟩
  unfold KilnDisplay.update
  rw [htt, hhv]
  by_cases h0 : 0 < t
  · obtain ⟨r, hrr⟩ : ∃ r, dictGet s.runtime (some 0) = some r := by
      cases h : dictGet s.runtime (some 0) with
      | none => exact absurd h (hr t htt h0)
      | some r => exact ⟨r, rfl⟩
    rw [hrr]
    simp only [expectInt, Except.bind, bind, if_pos h0, pure, Except.pure]
    by_cases hin : pyInList (dictGet s.state (some "IDLE")) ["RUNNING", "PAUSED"] = true ∧ 0 < t
    · rw [if_pos hin]
      refine ⟨_, rfl, fun hT => ?_, fun hG => ?_⟩
      · simp [hT, format_temperature]
      · simp [hG, format_temperature]
    · rw [if_neg hin]
      by_cases hv : 0 < v
      · rw [if_pos hv]
        refine ⟨_, rfl, fun hT => ?_, fun hG => ?_⟩
        · simp [hT, format_temperature]
        · simp [hG, format_temperature]
      · rw [if_neg hv]
        refine ⟨_, rfl, fun hT => ?_, fun hG => ?_⟩
        · simp [hT, format_temperature]
        · simp [hG, format_temperature]
  · simp only [expectInt, Except.bind, bind, if_neg h0, pure, Except.pure]
    have hin : ¬ (pyInList (dictGet s.state (some "IDLE")) ["RUNNING", "PAUSED"] = true ∧ 0 < t) := by
      intro hc
      exact h0 hc.2
    rw [if_neg hin]
    by_cases hv : 0 < v
    · rw [if_pos hv]
      refine ⟨_, rfl, fun hT => ?_, fun hG => ?_⟩
      · simp [hT, format_temperature]
      · simp [hG, format_temperature]
    · rw [if_neg hv]
      refine ⟨_, rfl, fun hT => ?_, fun hG => ?_⟩
      · simp [hT, format_temperature]
      · simp [hG, format_temperature]

theorem claim_C2_total_layout_witness :
    ∃ ls, KilnDisplay.update noneTempSnap "f" = Except.ok ls ∧
      (dictGet noneTempSnap.temperature (some 0) = none →
        ls.getD 1 ((0, 0), "") = ((0, 12), "Temp: ---")) ∧
      (dictGet noneTempSnap.target (some 0) = none →
        ls.getD 2 ((0, 0), "") = ((0, 24), "Targ: ---")) :=
  claim_C2_total_layout noneTempSnap "f" (by decide) (by decide)
    (fun _ _ _ => by decide)

theorem renderBits_length (bits : List Bool) (n : Nat) :
    (renderBits bits n).length = n := by
  simp [renderBits]
  omega

theorem length_unpackBytes (data : List Nat) :
    (unpackBytes data).length = 8 * data.length := by
  induction data with
  | nil => rfl
  | cons b rest ih => simp [unpackBytes, byteBits, ih]; omega

theorem unpackBytes_append (a b : List Nat) :
    unpackBytes (a ++ b) = unpackBytes a ++ unpackBytes b := by
  induction a with
  | nil => rfl
  | cons x rest ih => simp [unpackBytes, ih]

theorem unpackBytes_zeros (k : Nat) :
    ∀ x ∈ unpackBytes (List.replicate k 0), x = false := by
  induction k with
  | zero => intro x hx; simp [unpackBytes] at hx
  | succ k ih =>
    intro x hx
    rw [List.replicate_succ] at hx
    have hz : byteBits 0 = [false, false, false, false, false, false, false, false] := by
      decide
    rcases List.mem_append.mp hx with hx1 | hx1
    · rw [hz] at hx1
      simpa using hx1
    · exact ih x hx1

theorem getD_append_ge {α : Type} (l l' : List α) (d : α) :
    ∀ i, l.length ≤ i → (l ++ l').getD i d = l'.getD (i - l.length) d := by
  induction l with
  | nil => intro i _; simp
  | cons x rest ih =>
    intro i hi
    cases i with
    | zero => simp at hi
    | succ i =>
      have hr : rest.length ≤ i := by simpa using hi
      have he : i + 1 - (x :: rest).length = i - rest.length := by simp
      rw [List.cons_append, List.getD_cons_succ, ih i hr, he]

theorem getD_false_of_all {l : List Bool} (h : ∀ x ∈ l, x = false) (i : Nat) :
    l.getD i false = false := by
  induction l generalizing i with
  | nil => simp
  | cons x rest ih =>
    cases i with
    | zero => simpa using h x (by simp)
    | succ i =>
      simp only [List.getD_cons_succ]
      exact ih (fun y hy => h y (by simp [hy])) i

/-- C4: whenever fewer byte tokens than `(width*height)/8` are supplied,
the decoded bitmap still has exactly `width*height` bits and every bit at
an index at or past `8 * (number of supplied bytes)` is unlit; the
degradation is total (the decoder is a function, it cannot raise). -/
theorem claim_C4_padding (data : List Nat) (w h : Nat)
    (hshort : data.length < w * h / 8) :
    (hex_to_image data w h).length = w * h ∧
    ∀ i, 8 * data.length ≤ i → (hex_to_image data w h).getD i false = false := by
  constructor
  · exact renderBits_length _ _
  · intro i hi
    have hrec : reconcile data (w * h / 8) =
        data ++ List.replicate (w * h / 8 - data.length) 0 := by
      simp [reconcile, hshort]
    have hlen : (unpackBytes (reconcile data (w * h / 8))).length = 8 * (w * h / 8) := by
      rw [length_unpackBytes, hrec]
      simp
      omega
    have hle : 8 * (w * h / 8) ≤ w * h := by
      have := Nat.div_mul_le_self (w * h) 8
      omega
    have htake : (unpackBytes (reconcile data (w * h / 8))).take (w * h) =
        unpackBytes (reconcile data (w * h / 8)) :=
      List.take_of_length_le (by omega)
    have hval : hex_to_image data w h =
        unpackBytes data ++ (unpackBytes (List.replicate (w * h / 8 - data.length) 0) ++
          List.replicate (w * h - 8 * (w * h / 8)) false) := by
      rw [hex_to_image, renderBits, htake, hlen, hrec, unpackBytes_append,
        List.append_assoc]
    rw [hval]
    have hfirst : (unpackBytes data).length = 8 * data.length := length_unpackBytes data
    rw [getD_append_ge _ _ _ i (by omega)]
    refine getD_false_of_all (fun x hx => ?_) _
    rcases List.mem_append.mp hx with hx1 | hx1
    · exact unpackBytes_zeros _ x hx1
    · exact List.eq_of_mem_replicate hx1

theorem claim_C4_padding_witness :
    1 < 4 * 4 / 8 ∧ (hex_to_image [255] 4 4).getD 12 false = false :=
  ⟨by decide, (claim_C4_padding [255] 4 4 (by decide)).2 12 (by decide)⟩

/-- C5: whenever more byte tokens than `(width*height)/8` are supplied,
the decoded bitmap equals the one decoded from the first
`(width*height)/8` tokens alone — the extra tokens have no effect. -/
theorem claim_C5_truncation (data : List Nat) (w h : Nat)
    (hlong : w * h / 8 < data.length) :
    hex_to_image data w h = hex_to_image (data.take (w * h / 8)) w h := by
  have h1 : reconcile data (w * h / 8) = data.take (w * h / 8) := by
    unfold reconcile
    rw [if_neg (by omega), if_pos hlong]
  have h2 : reconcile (data.take (w * h / 8)) (w * h / 8) = data.take (w * h / 8) := by
    have hl : (data.take (w * h / 8)).length = w * h / 8 := by
      simp
      omega
    unfold reconcile
    rw [hl, if_neg (by omega), if_neg (by omega)]
  rw [hex_to_image, hex_to_image, h1, h2]

theorem claim_C5_truncation_witness :
    4 * 4 / 8 < 3 ∧ hex_to_image [1, 2, 3] 4 4 = hex_to_image ([1, 2, 3].take (4 * 4 / 8)) 4 4 :=
  ⟨by decide, claim_C5_truncation [1, 2, 3] 4 4 (by decide)⟩

theorem extractDims_of_none (ls : List (List Char)) (d : Nat × Nat)
    (h : ∀ l ∈ ls, dimSearch l = none) : extractDims ls d = d := by
  induction ls with
  | nil => rfl
  | cons l rest ih =>
    have hl : dimSearch l = none := h l (by simp)
    simp only [extractDims, hl]
    exact ih (fun p hp => h p (by simp [hp]))

theorem extractDims_first (pre : List (List Char)) (l : List Char)
    (rest : List (List Char)) (d : Nat × Nat) (w h : Nat)
    (hpre : ∀ p ∈ pre, dimSearch p = none) (hl : dimSearch l = some (w, h)) :
    extractDims (pre ++ l :: rest) d = (w, h) := by
  induction pre with
  | nil => simp only [List.nil_append, extractDims, hl]
  | cons p ps ih =>
    have hp : dimSearch p = none := hpre p (by simp)
    simp only [List.cons_append, extractDims, hp]
    exact ih (fun q hq => hpre q (by simp [hq]))

/-- C8: the decoder's dimensions are the line-by-line search of the raw
source text for the first `<digits>x<digits>px` match (`dimSearch` embeds
the case-insensitive pattern): if some line matches, the first matching
line's match is used; if no line matches, the caller-supplied defaults are
returned. -/
theorem claim_C8_dimensions :
    (∀ (text : List Char) (dw dh : Nat),
      (parse_hex_data text dw dh).2 = extractDims (splitLines text) (dw, dh)) ∧
    (∀ (ls : List (List Char)) (dw dh : Nat),
      (∀ l ∈ ls, dimSearch l = none) → extractDims ls (dw, dh) = (dw, dh)) ∧
    (∀ (pre : List (List Char)) (l : List Char) (rest : List (List Char))
      (dw dh w h : Nat), (∀ p ∈ pre, dimSearch p = none) →
      dimSearch l = some (w, h) → extractDims (pre ++ l :: rest) (dw, dh) = (w, h)) :=
  ⟨fun _ _ _ => rfl,
   fun ls dw dh h => extractDims_of_none ls (dw, dh) h,
   fun pre l rest dw dh w h hpre hl => extractDims_first pre l rest (dw, dh) w h hpre hl⟩

theorem claim_C8_dimensions_witness :
    (∀ p ∈ [("flame icon").data], dimSearch p = none) ∧
    dimSearch ("// 24X16Px data".data) = some (24, 16) ∧
    extractDims ([("flame icon").data] ++ ("// 24X16Px data".data) :: [("8x8px").data])
      (64, 64) = (24, 16) :=
  ⟨by decide, by decide,
   claim_C8_dimensions.2.2 [("flame icon").data] (("// 24X16Px data").data)
     [("8x8px").data] 64 64 24 16 (by decide) (by decide)⟩

theorem splitLines_no_newline (l : List Char) (h : ∀ c ∈ l, c ≠ '\n') :
    splitLines l = [l] := by
  induction l with
  | nil => rfl
  | cons c rest ih =>
    have hc : ¬ (c = '\n') := h c (by simp)
    simp only [splitLines, if_neg hc, ih (fun x hx => h x (by simp [hx]))]

theorem splitLines_newline_append (l t : List Char) (h : ∀ c ∈ l, c ≠ '\n') :
    splitLines (l ++ '\n' :: t) = l :: splitLines t := by
  induction l with
  | nil => simp [splitLines]
  | cons c rest ih =>
    have hc : ¬ (c = '\n') := h c (by simp)
    have hr := ih (fun x hx => h x (by simp [hx]))
    show splitLines (c :: (rest ++ '\n' :: t)) = (c :: rest) :: splitLines t
    simp only [splitLines, if_neg hc, hr]

theorem splitLines_joinLines (ls : List (List Char)) (hne : ls ≠ [])
    (h : ∀ l ∈ ls, ∀ c ∈ l, c ≠ '\n') : splitLines (joinLines ls) = ls := by
  induction ls with
  | nil => exact absurd rfl hne
  | cons l rest ih =>
    cases rest with
    | nil => exact splitLines_no_newline l (h l (by simp))
    | cons l2 rest2 =>
      show splitLines (l ++ '\n' :: joinLines (l2 :: rest2)) = _
      rw [splitLines_newline_append l _ (h l (by simp))]
      rw [ih (by simp) (fun q hq c hc => h q (by simp [hq]) c hc)]

/-- C10: the dimension search runs over the raw text, comment lines
included, and comment lines are removed only before token extraction:
whenever the first line with a `WxHpx` match is a `//` comment line, the
decoded dimensions come from that comment line, while the comment line's
`0x..` tokens contribute nothing (the extracted tokens are those of the
non-comment lines alone). -/
theorem claim_C10_comment_dims (pre post : List (List Char)) (c : List Char)
    (w h dw dh : Nat)
    (hnl : ∀ l ∈ pre ++ c :: post, ∀ ch ∈ l, ch ≠ '\n')
    (hpre : ∀ p ∈ pre, dimSearch p = none)
    (hc : isCommentLine c = true)
    (hdim : dimSearch c = some (w, h)) :
    (parse_hex_data (joinLines (pre ++ c :: post)) dw dh).2 = (w, h) ∧
    (parse_hex_data (joinLines (pre ++ c :: post)) dw dh).1 =
      findHexTokens (joinLines ((pre ++ post).filter (fun l => ! isCommentLine l))) := by
  have hsl : splitLines (joinLines (pre ++ c :: post)) = pre ++ c :: post :=
    splitLines_joinLines _ (by simp) hnl
  have hfil : (pre ++ c :: post).filter (fun l => ! isCommentLine l) =
      (pre ++ post).filter (fun l => ! isCommentLine l) := by
    simp [List.filter_append, List.filter_cons, hc]
  constructor
  · simp only [parse_hex_data, hsl]
    rw [extractDims_first pre c post (dw, dh) w h hpre hdim]
  · simp only [parse_hex_data, hsl, hfil]

theorem claim_C10_comment_dims_witness :
    (parse_hex_data (joinLines ([] ++ ("// 8x8px 0xFF").data :: [("0x12").data])) 16 16).2
      = (8, 8) ∧
    (parse_hex_data (joinLines ([] ++ ("// 8x8px 0xFF").data :: [("0x12").data])) 16 16).1 =
      findHexTokens (joinLines ((([] : List (List Char)) ++ [("0x12").data]).filter
        (fun l => ! isCommentLine l))) :=
  claim_C10_comment_dims [] [("0x12").data] (("// 8x8px 0xFF").data) 8 8 16 16
    (by decide) (by decide) (by decide) (by decide)

theorem hexVal_hexChar : ∀ d, d < 16 → hexVal (hexChar d) = some d := by decide

theorem byteBits_packByte : ∀ b0 b1 b2 b3 b4 b5 b6 b7 : Bool,
    byteBits (packByte b0 b1 b2 b3 b4 b5 b6 b7) = [b0, b1, b2, b3, b4, b5, b6, b7] := by
  decide

theorem packByte_lt : ∀ b0 b1 b2 b3 b4 b5 b6 b7 : Bool,
    packByte b0 b1 b2 b3 b4 b5 b6 b7 < 256 := by decide

theorem packBits_mem_lt (l : List Bool) : ∀ b ∈ packBits l, b < 256 := by
  induction l using packBits.induct with
  | case1 b0 b1 b2 b3 b4 b5 b6 b7 rest ih =>
    intro b hb
    rcases List.mem_cons.mp hb with hb1 | hb1
    · rw [hb1]; exact packByte_lt b0 b1 b2 b3 b4 b5 b6 b7
    · exact ih b hb1
  | case2 x hx =>
    intro b hb
    simp [packBits] at hb

theorem packBits_length (l : List Bool) : (packBits l).length = l.length / 8 := by
  induction l using packBits.induct with
  | case1 b0 b1 b2 b3 b4 b5 b6 b7 rest ih =>
    show (packBits rest).length + 1 = _
    rw [ih]
    simp
    omega
  | case2 x hx =>
    rcases x with _ | ⟨a, _ | ⟨b, _ | ⟨c, _ | ⟨d, _ | ⟨e, _ | ⟨f, _ | ⟨g, _ | ⟨i, t⟩⟩⟩⟩⟩⟩⟩⟩ <;>
      first
        | exact (hx _ _ _ _ _ _ _ _ _ rfl).elim
        | simp [packBits]

theorem unpackBytes_packBits (l : List Bool) :
    l.length % 8 = 0 → unpackBytes (packBits l) = l := by
  induction l using packBits.induct with
  | case1 b0 b1 b2 b3 b4 b5 b6 b7 rest ih =>
    intro h
    show byteBits (packByte b0 b1 b2 b3 b4 b5 b6 b7) ++ unpackBytes (packBits rest) = _
    rw [byteBits_packByte, ih (by simp at h ⊢; omega)]
    rfl
  | case2 x hx =>
    intro h
    rcases x with _ | ⟨a, _ | ⟨b, _ | ⟨c, _ | ⟨d, _ | ⟨e, _ | ⟨f, _ | ⟨g, _ | ⟨i, t⟩⟩⟩⟩⟩⟩⟩⟩
    · rfl
    all_goals first
      | exact (hx _ _ _ _ _ _ _ _ _ rfl).elim
      | (simp at h)

theorem scan_encode : ∀ bs, (∀ b ∈ bs, b < 256) →
    scanHexAux ScanState.s0 (encodeTokens bs) = bs := by
  intro bs
  induction bs with
  | nil => intro _; rfl
  | cons b rest ih =>
    intro h
    have hb : b < 256 := h b (by simp)
    have h1 : hexVal (hexChar (b / 16)) = some (b / 16) :=
      hexVal_hexChar (b / 16) (Nat.div_lt_of_lt_mul (by omega))
    have h2 : hexVal (hexChar (b % 16)) = some (b % 16) :=
      hexVal_hexChar (b % 16) (Nat.mod_lt b (by omega))
    have hdm : 16 * (b / 16) + b % 16 = b := by omega
    cases rest with
    | nil =>
      show scanHexAux ScanState.s0 (byteToken b) = [b]
      simp [byteToken, scanHexAux, h1, h2, hdm]
    | cons b2 rest2 =>
      have ihr := ih (fun x hx => h x (by simp [hx]))
      have hc1 : hexVal ',' = none := rfl
      have hc2 : hexVal ' ' = none := rfl
      show scanHexAux ScanState.s0
          (byteToken b ++ ',' :: ' ' :: encodeTokens (b2 :: rest2)) = b :: b2 :: rest2
      simp [byteToken, scanHexAux, h1, h2, hdm, hc1, hc2, ihr]

/-- C1: the decoder unpacks byte tokens in order, MSB-first, into the
row-major pixel stream; for every bitmap whose bit count `w*h` is a
multiple of 8, packing its bits MSB-first into byte tokens, rendering them
as `0x??` hex text and decoding that text with the same `w` and `h`
reproduces the identical bit sequence. -/
theorem claim_C1_roundtrip (bits : List Bool) (w h : Nat)
    (hlen : bits.length = w * h) (hdiv : w * h % 8 = 0) :
    hex_to_image (findHexTokens (encodeTokens (packBits bits))) w h = bits := by
  have hmem : ∀ b ∈ packBits bits, b < 256 := packBits_mem_lt bits
  have hscan : findHexTokens (encodeTokens (packBits bits)) = packBits bits :=
    scan_encode _ hmem
  rw [hscan]
  have hplen : (packBits bits).length = w * h / 8 := by rw [packBits_length, hlen]
  have hrec : reconcile (packBits bits) (w * h / 8) = packBits bits := by
    unfold reconcile
    rw [hplen, if_neg (by omega), if_neg (by omega)]
  rw [hex_to_image, hrec, unpackBytes_packBits bits (by omega)]
  unfold renderBits
  rw [List.take_of_length_le (by omega), hlen]
  simp

theorem claim_C1_roundtrip_witness :
    ([true, false, true, true, false, false, true, false] : List Bool).length = 4 * 2 ∧
    4 * 2 % 8 = 0 ∧
    hex_to_image (findHexTokens (encodeTokens
        (packBits [true, false, true, true, false, false, true, false]))) 4 2 =
      [true, false, true, true, false, false, true, false] :=
  ⟨by decide, by decide, claim_C1_roundtrip _ 4 2 (by decide) (by decide)⟩
